import Mathlib

/-!
Verification of the coordination layer of `django_base_model` against its
natural-language specification.

The embedding below is a shallow model of `src/django_base_model/models.py`
(classes `BaseQuerySet`, `BaseManager`, `BaseModel`) and of
`src/django_base_model/management/commands/makemigrations.py`.  Pure control
flow is translated function by function; the database is a list of primary
keys (a `pk` stands for the globally unique (model, primary key) pair), and
every operation returns the list of observable effects (hook invocations,
signal sends, physical persistence steps) it performed together with either
the resulting database or an error.  `@transaction.atomic` is modelled by a
wrapper that restores the initial database on error.

The overridable lifecycle hooks are instantiated from `src/tests/models.py`
(`Player.pre_delete` / `PlayerTraining.pre_delete` and their `bulk_` pairs
raise a `ValidationError` exactly when the instance `is_active`; the save
hooks are the base no-ops, as no test model overrides them).
-/

deriving instance DecidableEq for Except

namespace DjangoBase

/-- The `clean_mode` strings accepted by the library: `full`, `basic`, `skip`;
`other` stands for any other string, which every operation rejects with a
`ValueError`. -/
inductive CleanMode where
  | full
  | basic
  | skip
  | other
deriving DecidableEq

/-- Observable effects of one public operation, in execution order:
hook invocations, signal sends and the physical persistence calls that the
library delegates to the host ORM. -/
inductive Ev where
  | preDeleteHook (pk : Nat)
  | deleteSignal (pk : Nat)
  | bulkPreDeleteHook (pks : List Nat)
  | bulkDeleteSignal (pks : List Nat)
  | physicalDelete (pk : Nat)
  | physicalDeleteMany (pks : List Nat)
  | postDeleteHook (pk : Nat)
  | bulkPostDeleteHook (pks : List Nat)
  | preSaveHook
  | postSaveHook
  | cleanSelf
  | cleanRow (pk : Nat)
  | persistRow (pk : Nat)
  | createSignal (pk : Nat)
  | updateSignal (pks : List Nat)
  | bulkPreSaveHook
  | bulkPostSaveHook
  | updateRows (pks : List Nat)
  | insertRows (pks : List Nat)
  | bulkCreateSignal (pks : List Nat)
  | bulkUpdateSignal (pks : List Nat)
deriving DecidableEq

/-- The `_base_`-prefixed keyword arguments popped by every mutating
operation (`models.py`, `KWARG_PREFIX`).  `log_user : Option (Option Nat)`:
`none` means the kwarg was absent (popping it raises `KeyError`), `some u`
means it was supplied with actor `u` (possibly `None`).
`skip_signal_send : Option Bool`: `none` means the kwarg was absent. -/
structure BaseKwargs where
  no_user : Bool
  log_user : Option (Option Nat)
  clean_mode : CleanMode
  skip_pre_save : Bool
  skip_post_save : Bool
  skip_pre_delete : Bool
  skip_post_delete : Bool
  skip_signal_send : Option Bool
deriving DecidableEq

/-- Python truthiness of the popped `skip_signal_send` value
(`None` and `False` are falsy in the `if not skip_signal_send:` tests). -/
def isTruthy : Option Bool → Bool
  | some true => true
  | _ => false

/-- Actor resolution shared by every operation: `user = None` under
`_base_no_user`, otherwise `kwargs.pop(f"{KWARG_PREFIX}_log_user")`, which
raises `KeyError` when the kwarg is absent. -/
def resolveUser (k : BaseKwargs) : Except Unit (Option Nat) :=
  if k.no_user then Except.ok none
  else
    match k.log_user with
    | some u => Except.ok u
    | none => Except.error ()

/-- A forest of entities related through cascade-configured relations,
sibling-chained to keep all recursion structural.  A `node` records the
entity's primary key, its `is_active` flag (which drives the overridden
`pre_delete` / `bulk_pre_delete` hooks of the test models), the forest of its
one-to-one cascade targets, the forest of its reverse-foreign-key
(many-to-one) cascade targets, and its next sibling in the enclosing
forest. -/
inductive ET where
  | nil : ET
  | node (pk : Nat) (act : Bool) (o2o : ET) (m2o : ET) (sib : ET) : ET
deriving DecidableEq

/-- Primary keys of the top-level members of a forest (the rows of one
queryset). -/
def pksF : ET → List Nat
  | ET.nil => []
  | ET.node pk _ _ _ sib => pk :: pksF sib

/-- Whether some top-level member of the forest has `is_active` set;
this is exactly the condition under which the test models'
`bulk_pre_delete(objs, user)` raises. -/
def anyAct : ET → Bool
  | ET.nil => false
  | ET.node _ act _ _ sib => act || anyAct sib

/-- Primary keys of every entity in the forest, cascade targets included. -/
def allPks : ET → List Nat
  | ET.nil => []
  | ET.node pk _ o2o m2o sib => pk :: (allPks o2o ++ allPks m2o ++ allPks sib)

/-- Primary keys of every strict descendant (cascade target) of the
top-level members of the forest. -/
def kidsPks : ET → List Nat
  | ET.nil => []
  | ET.node _ _ o2o m2o sib => allPks o2o ++ allPks m2o ++ kidsPks sib

/-- Whether any entity in the forest, cascade targets included, has
`is_active` set. -/
def anyActAll : ET → Bool
  | ET.nil => false
  | ET.node _ act o2o m2o sib => act || anyActAll o2o || anyActAll m2o || anyActAll sib

/-- The database: the set of currently persisted rows, as a list of primary
keys. -/
abbrev Db := List Nat

/-- Result of running one operation: the effects it performed, and either
the new database or the exception that aborted it. -/
abbrev DbR := List Ev × Except Unit Db

/-- Physical removal of one row (`super().delete()` on a model instance). -/
def dbRemove (pk : Nat) (db : Db) : Db :=
  db.filter (fun x => x != pk)

/-- Physical removal of a set of rows (`super().delete()` on a queryset). -/
def dbRemoveMany (pks : List Nat) (db : Db) : Db :=
  db.filter (fun x => !(pks.contains x))

/-- Sequencing of two database actions: effects accumulate, an error in the
first action short-circuits (the exception propagates out of the nested
call). -/
def rbind (r : DbR) (f : Db → DbR) : DbR :=
  match r with
  | (tr, Except.error e) => (tr, Except.error e)
  | (tr, Except.ok db) =>
    match f db with
    | (tr2, x) => (tr ++ tr2, x)

/-- One queryset `delete` (`BaseQuerySet.delete`, models.py lines 86-134) on
the members `ms`, given the already-assembled run of its cascade step
(`kids`).  Nested cascade deletes forward only `_base_log_user`
(line 121), so every kwarg takes its default here: hooks run, the bulk
delete signal is sent.  The test models' `bulk_pre_delete` raises iff some
member `is_active`; the signal is sent before `super().delete()` physically
removes the members. -/
def qsDelStep (ms : ET) (kids : Db → DbR) (db : Db) : DbR :=
  if anyAct ms then ([], Except.error ()) else
  match kids db with
  | (tr, Except.error e) => (Ev.bulkPreDeleteHook (pksF ms) :: tr, Except.error e)
  | (tr, Except.ok db1) =>
    (Ev.bulkPreDeleteHook (pksF ms) :: tr
       ++ [Ev.bulkDeleteSignal (pksF ms), Ev.physicalDeleteMany (pksF ms)]
       ++ [Ev.bulkPostDeleteHook (pksF ms)],
     Except.ok (dbRemoveMany (pksF ms) db1))

/-- A queryset delete on a gathered cascade-target set: when the set is
empty no queryset delete is issued at all (an empty set never appears in
`related_objects.items()`, models.py line 119). -/
def qsDelIfAny (ms : ET) (kids : Db → DbR) (db : Db) : DbR :=
  match ms with
  | ET.nil => ([], Except.ok db)
  | _ => qsDelStep ms kids db

/-- The cascade step of a queryset `delete` (models.py lines 107-124): for
the members of the queryset, every one-to-one target and every
reverse-foreign-key target is deleted through a further wrapped queryset
`delete`.  (The source groups targets by concrete model into pk sets before
issuing one queryset delete per model; we issue one queryset delete per
member per relation kind, which deletes the same rows through the same
wrapped path, between the same bulk pre-hook and physical delete.) -/
def qsKidsRun : ET → Db → DbR
  | ET.nil, db => ([], Except.ok db)
  | ET.node _ _ o2o m2o sib, db =>
    rbind (qsDelIfAny o2o (qsKidsRun o2o) db) (fun db1 =>
      rbind (qsDelIfAny m2o (qsKidsRun m2o) db1) (fun db2 =>
        qsKidsRun sib db2))

/-- A full queryset `delete` with default kwargs (the form used for every
nested cascade delete), issued only when the target set is nonempty. -/
def qsDelRun (ms : ET) (db : Db) : DbR :=
  qsDelIfAny ms (qsKidsRun ms) db

/-- One single-entity `delete` (`BaseModel.delete`, models.py lines
476-514) with default kwargs, given the runs of its two cascade steps:
`pre_delete` hook (raises iff `is_active` in the test models), `delete`
signal, one-to-one cascade targets through wrapped single-entity deletes,
reverse-foreign-key targets through a wrapped queryset delete, then
`super().delete()`, then `post_delete`. -/
def entDelStep (pk : Nat) (act : Bool) (o2oRun qsRun : Db → DbR) (db : Db) : DbR :=
  if act then ([], Except.error ()) else
  match o2oRun db with
  | (tr, Except.error e) =>
    ([Ev.preDeleteHook pk, Ev.deleteSignal pk] ++ tr, Except.error e)
  | (tr, Except.ok db1) =>
    match qsRun db1 with
    | (tr2, Except.error e) =>
      ([Ev.preDeleteHook pk, Ev.deleteSignal pk] ++ tr ++ tr2, Except.error e)
    | (tr2, Except.ok db2) =>
      ([Ev.preDeleteHook pk, Ev.deleteSignal pk] ++ tr ++ tr2
         ++ [Ev.physicalDelete pk, Ev.postDeleteHook pk],
       Except.ok (dbRemove pk db2))

/-- The one-to-one cascade step of a single-entity delete (models.py lines
496-500): each one-to-one target is deleted through the wrapped
single-entity `delete`, which receives only `_base_log_user`, so all its
kwargs take their defaults.  An empty `m2o` forest stands for an entity
whose model declares no reverse-foreign-key cascade relation, so no nested
queryset delete is issued for it (`_related_cascade_fields` skips missing
accessors, models.py lines 526-537). -/
def entDelForestRun : ET → Db → DbR
  | ET.nil, db => ([], Except.ok db)
  | ET.node pk act o2o m2o sib, db =>
    rbind (entDelStep pk act (entDelForestRun o2o) (qsDelIfAny m2o (qsKidsRun m2o)) db)
      (fun db1 => entDelForestRun sib db1)

/-- `BaseModel.delete` (models.py lines 476-514).  `hasM2M` records whether
the model declares many-to-many fields; unlike `save`, `delete` never
consults `_meta.many_to_many`, so the parameter is unused and
`skip_signal_send` is popped with default `False` (line 481).  The entity
being deleted has key `pk`, flag `act`, one-to-one cascade forest `o2o` and
reverse-foreign-key cascade forest `m2o`. -/
def BaseModel_delete (hasM2M : Bool) (k : BaseKwargs) (pk : Nat) (act : Bool)
    (o2o m2o : ET) (db : Db) : DbR :=
  let sss := k.skip_signal_send.getD false
  match resolveUser k with
  | Except.error e => ([], Except.error e)
  | Except.ok _ =>
    if ¬k.skip_pre_delete ∧ act then ([], Except.error ()) else
    let ev1 := (if k.skip_pre_delete then [] else [Ev.preDeleteHook pk])
            ++ (if sss then [] else [Ev.deleteSignal pk])
    match entDelForestRun o2o db with
    | (tr, Except.error e) => (ev1 ++ tr, Except.error e)
    | (tr, Except.ok db1) =>
      match qsDelRun m2o db1 with
      | (tr2, Except.error e) => (ev1 ++ tr ++ tr2, Except.error e)
      | (tr2, Except.ok db2) =>
        (ev1 ++ tr ++ tr2 ++ [Ev.physicalDelete pk]
           ++ (if k.skip_post_delete then [] else [Ev.postDeleteHook pk]),
         Except.ok (dbRemove pk db2))

/-- The `@transaction.atomic` wrapper around `BaseModel.delete`: on any
exception the whole transaction rolls back and the database is unchanged. -/
def BaseModel_delete_atomic (hasM2M : Bool) (k : BaseKwargs) (pk : Nat) (act : Bool)
    (o2o m2o : ET) (db : Db) : Db :=
  match (BaseModel_delete hasM2M k pk act o2o m2o db).2 with
  | Except.ok db' => db'
  | Except.error _ => db

/-- `BaseQuerySet.delete` (models.py lines 86-134) at the top level, kwargs
included: `skip_signal_send` is popped with default `False` (line 91) and
`_meta.many_to_many` is never consulted. -/
def BaseQuerySet_delete (hasM2M : Bool) (k : BaseKwargs) (ms : ET) (db : Db) : DbR :=
  let sss := k.skip_signal_send.getD false
  match resolveUser k with
  | Except.error e => ([], Except.error e)
  | Except.ok _ =>
    if ¬k.skip_pre_delete ∧ anyAct ms then ([], Except.error ()) else
    let ev1 := if k.skip_pre_delete then [] else [Ev.bulkPreDeleteHook (pksF ms)]
    match qsKidsRun ms db with
    | (tr, Except.error e) => (ev1 ++ tr, Except.error e)
    | (tr, Except.ok db1) =>
      (ev1 ++ tr ++ (if sss then [] else [Ev.bulkDeleteSignal (pksF ms)])
         ++ [Ev.physicalDeleteMany (pksF ms)]
         ++ (if k.skip_post_delete then [] else [Ev.bulkPostDeleteHook (pksF ms)]),
       Except.ok (dbRemoveMany (pksF ms) db1))

/-- Whether an event physically removes the row `c`. -/
def evRemoves (c : Nat) : Ev → Bool
  | Ev.physicalDelete p => p == c
  | Ev.physicalDeleteMany l => l.contains c
  | _ => false

/-- Whether the trace contains a physical removal of row `c`. -/
def physRemoved (c : Nat) (tr : List Ev) : Bool :=
  tr.any (evRemoves c)

/-- Default kwargs: an actor supplied, no suppression, full validation. -/
def defaultKwargs (u : Nat) : BaseKwargs :=
  ⟨false, some (some u), CleanMode.full, false, false, false, false, none⟩

/-- The validation loop shared by `update`, `bulk_create` and `bulk_update`
(`for obj in ...: obj.full_clean()` / `obj.clean()` depending on
`clean_mode`; any other mode raises `ValueError`).  A row is a pair of its
primary key and whether its validators pass (full and basic validation
differ only in which validators run, which no claim depends on).  Returns
the clean events emitted before the first failure and whether the loop
completed. -/
def cleanRowsGo : List (Nat × Bool) → List Ev × Bool
  | [] => ([], true)
  | (pk, ok) :: rs =>
    if ok then
      match cleanRowsGo rs with
      | (evs, b) => (Ev.cleanRow pk :: evs, b)
    else ([], false)

/-- Dispatch on `clean_mode` for a row collection. -/
def cleanRows (mode : CleanMode) (rows : List (Nat × Bool)) : List Ev × Bool :=
  match mode with
  | CleanMode.full => cleanRowsGo rows
  | CleanMode.basic => cleanRowsGo rows
  | CleanMode.skip => ([], true)
  | CleanMode.other => ([], false)

/-- Dispatch on `clean_mode` for the single entity being saved
(`self.full_clean()` / `self.clean()`, models.py lines 441-446). -/
def cleanSelfStep (mode : CleanMode) (cleanOk : Bool) : List Ev × Bool :=
  match mode with
  | CleanMode.full => if cleanOk then ([Ev.cleanSelf], true) else ([], false)
  | CleanMode.basic => if cleanOk then ([Ev.cleanSelf], true) else ([], false)
  | CleanMode.skip => ([], true)
  | CleanMode.other => ([], false)

/-- `BaseModel.save` (models.py lines 419-460).  `pk` is the entity's
primary key at call time (`none` for a never-persisted entity), `newPk` the
key the store assigns on first insert, `cleanOk` whether the entity's
validators pass.  The save hooks are the base no-ops (no test model
overrides them), so they emit their event and never raise. -/
def BaseModel_save (hasM2M : Bool) (k : BaseKwargs) (pk : Option Nat) (newPk : Nat)
    (cleanOk : Bool) : List Ev × Except Unit Unit :=
  match resolveUser k with
  | Except.error e => ([], Except.error e)
  | Except.ok _ =>
    if hasM2M ∧ k.skip_signal_send = none then ([], Except.error ()) else
    let ev1 := if k.skip_pre_save then [] else [Ev.preSaveHook]
    match cleanSelfStep k.clean_mode cleanOk with
    | (ev2, false) => (ev1 ++ ev2, Except.error ())
    | (ev2, true) =>
      let is_created := pk.isNone
      let pk1 := pk.getD newPk
      let ev3 := [Ev.persistRow pk1]
      let ev4 :=
        if isTruthy k.skip_signal_send then []
        else if is_created then [Ev.createSignal pk1] else [Ev.updateSignal [pk1]]
      let ev5 := if k.skip_post_save then [] else [Ev.postSaveHook]
      (ev1 ++ ev2 ++ ev3 ++ ev4 ++ ev5, Except.ok ())

/-- `BaseQuerySet.create` (models.py lines 30-42): pops the `_base_` kwargs
and forwards them all to the wrapped save of a freshly constructed entity
(`force_insert`, so the key is `none`). -/
def BaseQuerySet_create (hasM2M : Bool) (k : BaseKwargs) (newPk : Nat)
    (cleanOk : Bool) : List Ev × Except Unit Unit :=
  BaseModel_save hasM2M k none newPk cleanOk

/-- `BaseQuerySet.update` (models.py lines 44-84) over the rows currently
matched by the queryset. -/
def BaseQuerySet_update (hasM2M : Bool) (k : BaseKwargs) (rows : List (Nat × Bool)) :
    List Ev × Except Unit Unit :=
  match resolveUser k with
  | Except.error e => ([], Except.error e)
  | Except.ok _ =>
    if hasM2M ∧ k.skip_signal_send = none then ([], Except.error ()) else
    let ev1 := if k.skip_pre_save then [] else [Ev.bulkPreSaveHook]
    let pks := rows.map (fun r => r.1)
    let ev2 := [Ev.updateRows pks]
    match cleanRows k.clean_mode rows with
    | (ev3, false) => (ev1 ++ ev2 ++ ev3, Except.error ())
    | (ev3, true) =>
      let ev4 := if isTruthy k.skip_signal_send then [] else [Ev.updateSignal pks]
      let ev5 := if k.skip_post_save then [] else [Ev.bulkPostSaveHook]
      (ev1 ++ ev2 ++ ev3 ++ ev4 ++ ev5, Except.ok ())

/-- `BaseQuerySet.bulk_create` (models.py lines 136-187).  `managers` is the
number of managers the model declares; when more than one, the
`_base_objects` kwarg must name one (modelled by `objectsKwarg`).  Each
object carries the key the insert will assign and whether its validators
pass.  Note the type-level pre-save hook runs before the many-to-many
check. -/
def BaseQuerySet_bulk_create (hasM2M : Bool) (managers : Nat) (objectsKwarg : Bool)
    (k : BaseKwargs) (objs : List (Nat × Bool)) (db : Db) : List Ev × Except Unit Db :=
  if managers > 1 ∧ ¬objectsKwarg then ([], Except.error ()) else
  match resolveUser k with
  | Except.error e => ([], Except.error e)
  | Except.ok _ =>
    let ev1 := if k.skip_pre_save then [] else [Ev.bulkPreSaveHook]
    if hasM2M ∧ k.skip_signal_send = none then (ev1, Except.error ()) else
    let pks := objs.map (fun o => o.1)
    let ev2 := [Ev.insertRows pks]
    let db1 := db ++ pks
    match cleanRows k.clean_mode objs with
    | (ev3, false) => (ev1 ++ ev2 ++ ev3, Except.error ())
    | (ev3, true) =>
      let ev4 := if isTruthy k.skip_signal_send then [] else [Ev.bulkCreateSignal pks]
      let ev5 := if k.skip_post_save then [] else [Ev.bulkPostSaveHook]
      (ev1 ++ ev2 ++ ev3 ++ ev4 ++ ev5, Except.ok db1)

/-- The `@transaction.atomic` wrapper around `bulk_create`: on any
exception the database is unchanged. -/
def BaseQuerySet_bulk_create_atomic (hasM2M : Bool) (managers : Nat) (objectsKwarg : Bool)
    (k : BaseKwargs) (objs : List (Nat × Bool)) (db : Db) : Db :=
  match (BaseQuerySet_bulk_create hasM2M managers objectsKwarg k objs db).2 with
  | Except.ok db' => db'
  | Except.error _ => db

/-- The option forwarding of `get_or_create` / `update_or_create`
(models.py lines 213-220 and 243-249): the resolved actor and the popped
options are handed to the wrapped create/save path. -/
def forwardKwargs (k : BaseKwargs) (u : Option Nat) : BaseKwargs :=
  ⟨false, some u, k.clean_mode, k.skip_pre_save, k.skip_post_save,
   k.skip_pre_delete, k.skip_post_delete, k.skip_signal_send⟩

/-- `BaseQuerySet.get_or_create` (models.py lines 189-222): unique lookup,
and on `DoesNotExist` a wrapped create with the options forwarded. -/
def BaseQuerySet_get_or_create (hasM2M : Bool) (k : BaseKwargs) (found : Bool)
    (newPk : Nat) (cleanOk : Bool) : List Ev × Except Unit Unit :=
  match resolveUser k with
  | Except.error e => ([], Except.error e)
  | Except.ok u =>
    if hasM2M ∧ k.skip_signal_send = none then ([], Except.error ()) else
    if found then ([], Except.ok ())
    else BaseModel_save hasM2M (forwardKwargs k u) none newPk cleanOk

/-- `BaseQuerySet.update_or_create` (models.py lines 224-267): locked
unique lookup; on miss a wrapped create, on hit defaults applied and a
wrapped save of the found row (`found = some pk`). -/
def BaseQuerySet_update_or_create (hasM2M : Bool) (k : BaseKwargs) (found : Option Nat)
    (newPk : Nat) (cleanOk : Bool) : List Ev × Except Unit Unit :=
  match resolveUser k with
  | Except.error e => ([], Except.error e)
  | Except.ok u =>
    if hasM2M ∧ k.skip_signal_send = none then ([], Except.error ()) else
    match found with
    | none => BaseModel_save hasM2M (forwardKwargs k u) none newPk cleanOk
    | some pk => BaseModel_save hasM2M (forwardKwargs k u) (some pk) newPk cleanOk

/-- A concrete field as inspected by `_bulk_update` (models.py lines
280-284). -/
structure UField where
  concrete : Bool
  many_to_many : Bool
  primary_key : Bool
deriving DecidableEq

/-- Auxiliary slicer: `acc` holds the current chunk reversed, `c` its
remaining capacity. -/
def chunksAux (k : Nat) : List α → List α → Nat → List (List α)
  | [], acc, _ => if acc.isEmpty then [] else [acc.reverse]
  | x :: xs, acc, 0 => acc.reverse :: chunksAux k xs [x] (k - 1)
  | x :: xs, acc, c + 1 => chunksAux k xs (x :: acc) c

/-- The slicing `objs[i:i + batch_size] for i in range(0, len(objs),
batch_size)` (models.py line 293), for a positive batch size. -/
def sliceChunks (k : Nat) (l : List α) : List (List α) :=
  match k with
  | 0 => []
  | kk + 1 => chunksAux (kk + 1) l [] (kk + 1)

/-- `batch_size = min(batch_size, max_batch_size) if batch_size else
max_batch_size` (models.py line 291); `0` is falsy, and a negative value
was already rejected (the `maxB` result there is unreachable). -/
def resolvedBatchSize (batch_size : Option Int) (maxB : Nat) : Nat :=
  match batch_size with
  | none => maxB
  | some b => if b ≤ 0 then maxB else min b.toNat maxB

/-- The kwargs of the internal per-batch update issued by `_bulk_update`
(models.py lines 309-313): the actor is forwarded, `skip_signal_send` is
set to `True`, every other option takes its default — so hooks run and
`clean_mode` is `full` for every internal batch update. -/
def internalKwargs (u : Option Nat) : BaseKwargs :=
  ⟨false, some u, CleanMode.full, false, false, false, false, some true⟩

/-- The loop `for pks, update_kwargs in updates: self.filter(pk__in=pks)
.update(**update_kwargs)` (models.py lines 310-313): one wrapped queryset
update per batch. -/
def runBatches (hasM2M : Bool) (u : Option Nat) :
    List (List (Nat × Bool)) → List Ev × Except Unit Unit
  | [] => ([], Except.ok ())
  | b :: bs =>
    match BaseQuerySet_update hasM2M (internalKwargs u) b with
    | (tr, Except.error e) => (tr, Except.error e)
    | (tr, Except.ok _) =>
      match runBatches hasM2M u bs with
      | (tr2, r) => (tr ++ tr2, r)

/-- `BaseQuerySet._bulk_update` (models.py lines 269-313): the fail-fast
parameter checks in source order, then the batched conditional updates.
Each object carries its (possibly missing) primary key and whether its
validators pass. -/
def BaseQuerySet_underscore_bulk_update (hasM2M : Bool)
    (objs : List (Option Nat × Bool)) (fields : List UField) (batch_size : Option Int)
    (maxB : Nat) (u : Option Nat) : List Ev × Except Unit Unit :=
  if batch_size.elim false (fun b => decide (b < 0)) then ([], Except.error ()) else
  if fields.isEmpty then ([], Except.error ()) else
  if objs.any (fun o => o.1.isNone) then ([], Except.error ()) else
  if fields.any (fun f => !f.concrete || f.many_to_many) then ([], Except.error ()) else
  if fields.any (fun f => f.primary_key) then ([], Except.error ()) else
  if objs.isEmpty then ([], Except.ok ()) else
  let bs := resolvedBatchSize batch_size maxB
  let batches := sliceChunks bs (objs.map (fun o => (o.1.getD 0, o.2)))
  runBatches hasM2M u batches

/-- `BaseQuerySet.bulk_update` (models.py lines 316-350).  Note:
`skip_signal_send` is popped with default `None` (line 331) and — unlike
`save`/`update`/`bulk_create`/`get_or_create`/`update_or_create` — no
many-to-many check is performed. -/
def BaseQuerySet_bulk_update (hasM2M : Bool) (k : BaseKwargs)
    (objs : List (Option Nat × Bool)) (fields : List UField) (batch_size : Option Int)
    (maxB : Nat) : List Ev × Except Unit Unit :=
  match resolveUser k with
  | Except.error e => ([], Except.error e)
  | Except.ok u =>
    let ev1 := if k.skip_pre_save then [] else [Ev.bulkPreSaveHook]
    match BaseQuerySet_underscore_bulk_update hasM2M objs fields batch_size maxB u with
    | (tr, Except.error e) => (ev1 ++ tr, Except.error e)
    | (tr, Except.ok _) =>
      let rows := objs.map (fun o => (o.1.getD 0, o.2))
      match cleanRows k.clean_mode rows with
      | (ev3, false) => (ev1 ++ tr ++ ev3, Except.error ())
      | (ev3, true) =>
        let pks := rows.map (fun r => r.1)
        let ev4 := if isTruthy k.skip_signal_send then [] else [Ev.bulkUpdateSignal pks]
        let ev5 := if k.skip_post_save then [] else [Ev.bulkPostSaveHook]
        (ev1 ++ tr ++ ev3 ++ ev4 ++ ev5, Except.ok ())

/-- Whether a trace event is a physical persistence step (a write that the
host store performs). -/
def isPersistEv : Ev → Bool
  | Ev.persistRow _ => true
  | Ev.insertRows _ => true
  | Ev.updateRows _ => true
  | Ev.physicalDelete _ => true
  | Ev.physicalDeleteMany _ => true
  | _ => false

/-- Whether one of the per-entity and batch-level overrides of a hook
family is customized away from the base default. -/
structure HookPair where
  single : Bool
  bulk : Bool
deriving DecidableEq

/-- Override state of the four hook families of an entity type. -/
structure HookOverrides where
  pre_saveP : HookPair
  post_saveP : HookPair
  pre_deleteP : HookPair
  post_deleteP : HookPair
deriving DecidableEq

/-- The per-family condition of models.py lines 385-387:
`(single_func_overriden or bulk_func_overriden) and not
(single_func_overriden and bulk_func_overriden)`. -/
def pairViolation (p : HookPair) : Bool :=
  (p.single || p.bulk) && !(p.single && p.bulk)

/-- `BaseModel.__init__` (models.py lines 376-391): for each hook family in
order, raise `NotImplementedError` when exactly one of the pair is
customized. -/
def BaseModel_init (h : HookOverrides) : Except Unit Unit :=
  if pairViolation h.pre_saveP then Except.error () else
  if pairViolation h.post_saveP then Except.error () else
  if pairViolation h.pre_deleteP then Except.error () else
  if pairViolation h.post_deleteP then Except.error () else
  Except.ok ()

/-- One migration operation as inspected by the migration guard:
whether it is a `CreateModel`, the created model's name, and the Meta
options it declares. -/
structure MigOperation where
  isCreateModel : Bool
  opName : String
  options : List String
deriving DecidableEq

/-- One generated migration. -/
structure Migration where
  app_label : String
  operations : List MigOperation
deriving DecidableEq

/-- The guard's per-operation condition (makemigrations.py lines 22-25):
the operation creates a model and its Meta options lack
`default_permissions`. -/
def opOffends (op : MigOperation) : Bool :=
  op.isCreateModel && !(op.options.contains "default_permissions")

/-- First offending operation of one migration: a `CreateModel` without a
`default_permissions` Meta option (makemigrations.py lines 20-30). -/
def findOffenderOps (lbl : String) : List MigOperation → Option (String × String)
  | [] => none
  | op :: ops =>
    if opOffends op then some (lbl, op.opName) else findOffenderOps lbl ops

/-- First offending operation over the flattened migration list. -/
def findOffender : List Migration → Option (String × String)
  | [] => none
  | m :: ms =>
    match findOffenderOps m.app_label m.operations with
    | some e => some e
    | none => findOffender ms

/-- `Command.write_migration_files` (makemigrations.py lines 17-31): unless
the `--skip-default-permissions-check` flag is set, scan every migration of
every app for a `CreateModel` without `default_permissions`; raise a
`ValueError` naming `app_label.name` for the first offender, and only after
the whole scan hand all migrations to the framework writer.  The returned
list is the set of migration files written; an error means none were
written. -/
def Command_write_migration_files (skip : Bool)
    (changes : List (String × List Migration)) :
    Except (String × String) (List Migration) :=
  let migs := (changes.map (fun c => c.2)).flatten
  if skip then Except.ok migs else
  match findOffender migs with
  | some e => Except.error e
  | none => Except.ok migs

/-- The (app_label, model name) pairs of every newly created entity type in
the migration set that lacks an explicit `default_permissions`
declaration, in scan order. -/
def offenders (migs : List Migration) : List (String × String) :=
  migs.flatMap (fun m =>
    (m.operations.filter opOffends).map (fun op => (m.app_label, op.opName)))

/-- Classifier: entity-create notification. -/
def isCreateSig : Ev → Bool
  | Ev.createSignal _ => true
  | _ => false

/-- Classifier: entity/collection update notification (`base_update`). -/
def isUpdateSig : Ev → Bool
  | Ev.updateSignal _ => true
  | _ => false

/-- Classifier: a validation step (`full_clean` / `clean` of one entity). -/
def isCleanEv : Ev → Bool
  | Ev.cleanRow _ => true
  | Ev.cleanSelf => true
  | _ => false

/-- Classifier: type-level `bulk_pre_save` hook invocation. -/
def isBulkPreSave : Ev → Bool
  | Ev.bulkPreSaveHook => true
  | _ => false

/-- Classifier: type-level `bulk_post_save` hook invocation. -/
def isBulkPostSave : Ev → Bool
  | Ev.bulkPostSaveHook => true
  | _ => false

/-! ## Claim C5: pairing of per-entity and batch-level hook overrides -/

/-- Claim C5: at instantiation time, for each hook family in
{pre_save, post_save, pre_delete, post_delete}, customizing exactly one of
the per-entity override and the batch-level override makes
`BaseModel.__init__` fail with a configuration error, and instantiation
succeeds exactly when every family has both or neither customized. -/
theorem claim_C5_hook_pairing (h : HookOverrides) :
    BaseModel_init h = Except.ok () ↔
      (h.pre_saveP.single = h.pre_saveP.bulk ∧
       h.post_saveP.single = h.post_saveP.bulk ∧
       h.pre_deleteP.single = h.pre_deleteP.bulk ∧
       h.post_deleteP.single = h.post_deleteP.bulk) := by
  rcases h with ⟨⟨a, b⟩, ⟨c, d⟩, ⟨e, f⟩, ⟨g, i⟩⟩
  revert a b c d e f g i
  decide

/-! ## Claim C9: the migration permission-default guard -/

theorem findOffenderOps_eq_head (lbl : String) (ops : List MigOperation) :
    findOffenderOps lbl ops =
      ((ops.filter opOffends).map (fun op => (lbl, op.opName))).head? := by
  induction ops with
  | nil => rfl
  | cons op ops ih =>
    by_cases hop : opOffends op = true
    · simp [findOffenderOps, List.filter_cons, hop]
    · simp [findOffenderOps, List.filter_cons, hop, ih]

theorem findOffender_eq_head (migs : List Migration) :
    findOffender migs = (offenders migs).head? := by
  induction migs with
  | nil => rfl
  | cons m ms ih =>
    simp only [findOffender, findOffenderOps_eq_head, ih]
    cases hl : (m.operations.filter opOffends).map (fun op => (m.app_label, op.opName)) with
    | nil => simp [offenders, hl]
    | cons x xs => simp [offenders, hl]

/-- Claim C9: for a migration-generation run without the skip flag, if some
newly created entity type in the generated migration set lacks an explicit
`default_permissions` declaration, generation fails with an error naming an
offending type (the first in scan order) and no migration files are
written (the writer is only reached on success); with the override flag
supplied, generation succeeds regardless and writes every migration. -/
theorem claim_C9_migration_guard (changes : List (String × List Migration)) :
    (∀ e, (offenders ((changes.map (fun c => c.2)).flatten)).head? = some e →
        Command_write_migration_files false changes = Except.error e ∧
        e ∈ offenders ((changes.map (fun c => c.2)).flatten)) ∧
    Command_write_migration_files true changes =
      Except.ok ((changes.map (fun c => c.2)).flatten) := by
  constructor
  · intro e he
    constructor
    · unfold Command_write_migration_files
      simp only [if_neg Bool.false_ne_true, findOffender_eq_head]
      rw [he]
    · exact List.mem_of_mem_head? (Option.mem_def.mpr he)
  · rfl

/-- Witness for claim C9 at a concrete migration set: a `CreateModel` for
`tests.Team` without `default_permissions` makes generation fail naming
`tests.Team`. -/
theorem claim_C9_witness :
    Command_write_migration_files false
        [("tests", [⟨"tests", [⟨true, "Team", []⟩]⟩])] =
      Except.error ("tests", "Team") ∧
    ("tests", "Team") ∈ offenders
        (([("tests", [⟨"tests", [⟨true, "Team", []⟩]⟩])].map
          (fun c => c.2)).flatten) :=
  (claim_C9_migration_guard [("tests", [⟨"tests", [⟨true, "Team", []⟩]⟩])]).1
    ("tests", "Team") rfl

/-! ## Claim C8: fail-fast parameter checks of bulk_update -/

theorem underscore_bulk_update_err (hasM2M : Bool) (objs : List (Option Nat × Bool))
    (fields : List UField) (batch_size : Option Int) (maxB : Nat) (u : Option Nat)
    (h : batch_size.elim false (fun b => decide (b < 0)) = true ∨ fields = [] ∨
         objs.any (fun o => o.1.isNone) = true) :
    BaseQuerySet_underscore_bulk_update hasM2M objs fields batch_size maxB u
      = ([], Except.error ()) := by
  unfold BaseQuerySet_underscore_bulk_update
  rcases h with h | h | h <;> simp [h]

/-- Claim C8: every `bulk_update` call with a negative batch size, an empty
field list, or some input object lacking a primary key fails with a
configuration error, and its trace contains no persistence side effect. -/
theorem claim_C8_bulk_update_fail_fast (hasM2M : Bool) (k : BaseKwargs)
    (objs : List (Option Nat × Bool)) (fields : List UField)
    (batch_size : Option Int) (maxB : Nat)
    (h : batch_size.elim false (fun b => decide (b < 0)) = true ∨ fields = [] ∨
         objs.any (fun o => o.1.isNone) = true) :
    (BaseQuerySet_bulk_update hasM2M k objs fields batch_size maxB).2
      = Except.error () ∧
    (BaseQuerySet_bulk_update hasM2M k objs fields batch_size maxB).1.any isPersistEv
      = false := by
  unfold BaseQuerySet_bulk_update
  cases hu : resolveUser k with
  | error e =>
    simp [hu]
  | ok u =>
    simp only [hu, underscore_bulk_update_err hasM2M objs fields batch_size maxB u h]
    cases k.skip_pre_save <;> simp [isPersistEv]

/-- Witness for claim C8 at a concrete call: one valid object, one valid
field, batch size -1. -/
theorem claim_C8_witness :
    (BaseQuerySet_bulk_update false (defaultKwargs 1) [(some 1, true)]
        [⟨true, false, false⟩] (some (-1)) 10).2 = Except.error () ∧
    (BaseQuerySet_bulk_update false (defaultKwargs 1) [(some 1, true)]
        [⟨true, false, false⟩] (some (-1)) 10).1.any isPersistEv = false :=
  claim_C8_bulk_update_fail_fast false (defaultKwargs 1) [(some 1, true)]
    [⟨true, false, false⟩] (some (-1)) 10 (Or.inl (by decide))

/-! ## Claim C4: create vs update notification on save -/

theorem cleanSelfStep_shape (mode : CleanMode) (ok : Bool) :
    (cleanSelfStep mode ok).1 = [] ∨ (cleanSelfStep mode ok).1 = [Ev.cleanSelf] := by
  cases mode <;> cases ok <;> simp [cleanSelfStep]

/-- Claim C4: a completing save with notifications not suppressed publishes
exactly one create event and zero update events when the entity's primary
key was null at the start of the call, and exactly one update event and
zero create events when it was non-null. -/
theorem claim_C4_save_signals (hasM2M : Bool) (k : BaseKwargs) (pk : Option Nat)
    (newPk : Nat) (cleanOk : Bool) (evs : List Ev)
    (hrun : BaseModel_save hasM2M k pk newPk cleanOk = (evs, Except.ok ()))
    (hsig : isTruthy k.skip_signal_send = false) :
    (pk = none → evs.countP isCreateSig = 1 ∧ evs.countP isUpdateSig = 0) ∧
    (∀ p, pk = some p → evs.countP isUpdateSig = 1 ∧ evs.countP isCreateSig = 0) := by
  unfold BaseModel_save at hrun
  cases hu : resolveUser k with
  | error e => rw [hu] at hrun; simp at hrun
  | ok u =>
    rw [hu] at hrun
    by_cases hm : hasM2M ∧ k.skip_signal_send = none
    · rw [if_pos hm] at hrun; simp at hrun
    · rw [if_neg hm] at hrun
      cases hc : cleanSelfStep k.clean_mode cleanOk with
      | mk ev2 okc =>
        rw [hc] at hrun
        cases okc with
        | false => simp at hrun
        | true =>
          have hevs := congrArg Prod.fst hrun
          simp only at hevs
          have h2 := cleanSelfStep_shape k.clean_mode cleanOk
          rw [hc] at h2
          simp only at h2
          rcases h2 with h2 | h2 <;>
            subst h2 <;>
            refine ⟨fun hpk => ?_, fun p hpk => ?_⟩ <;>
              subst hpk <;>
              rw [← hevs, hsig] <;>
              cases k.skip_pre_save <;> cases k.skip_post_save <;>
                simp [List.countP_append, List.countP_cons, isCreateSig, isUpdateSig]

/-- Witness for claim C4: saving a fresh entity (null primary key) with an
actor and no suppression publishes one create event and no update
event. -/
theorem claim_C4_witness :
    (BaseModel_save false (defaultKwargs 3) none 5 true).1.countP isCreateSig = 1 ∧
    (BaseModel_save false (defaultKwargs 3) none 5 true).1.countP isUpdateSig = 0 :=
  (claim_C4_save_signals false (defaultKwargs 3) none 5 true
    (BaseModel_save false (defaultKwargs 3) none 5 true).1 rfl rfl).1 rfl

/-! ## Claim C3: mandatory skip_signal_send in the presence of m2m fields -/

/-- The same kwargs with `skip_signal_send` replaced. -/
def withSss (k : BaseKwargs) (s : Option Bool) : BaseKwargs :=
  ⟨k.no_user, k.log_user, k.clean_mode, k.skip_pre_save, k.skip_post_save,
   k.skip_pre_delete, k.skip_post_delete, s⟩

/-- Counterexample to claim C3: `BaseModel.delete` on a model with
many-to-many relations, with `skip_signal_send` omitted, does not fail with
a configuration error — it completes and physically removes the row
(models.py line 481 pops the kwarg with default `False` and `delete` never
checks `_meta.many_to_many`). -/
theorem claim_C3_counterexample :
    (BaseModel_delete true (defaultKwargs 3) 1 false ET.nil ET.nil [1]).2
      = Except.ok [] ∧
    physRemoved 1 (BaseModel_delete true (defaultKwargs 3) 1 false ET.nil ET.nil [1]).1
      = true := by
  decide

theorem update_internal_m2m_irrelevant (u : Option Nat) (b : List (Nat × Bool)) :
    BaseQuerySet_update true (internalKwargs u) b
      = BaseQuerySet_update false (internalKwargs u) b := by
  unfold BaseQuerySet_update
  simp [internalKwargs, resolveUser]

theorem runBatches_m2m_irrelevant (u : Option Nat)
    (bs : List (List (Nat × Bool))) :
    runBatches true u bs = runBatches false u bs := by
  induction bs with
  | nil => rfl
  | cons b bs ih =>
    simp only [runBatches, update_internal_m2m_irrelevant u b, ih]

theorem underscore_bulk_update_m2m_irrelevant (objs : List (Option Nat × Bool))
    (fields : List UField) (batch_size : Option Int) (maxB : Nat) (u : Option Nat) :
    BaseQuerySet_underscore_bulk_update true objs fields batch_size maxB u
      = BaseQuerySet_underscore_bulk_update false objs fields batch_size maxB u := by
  simp only [BaseQuerySet_underscore_bulk_update, runBatches_m2m_irrelevant]

/-- Claim C3 as amended: with `skip_signal_send` omitted on an entity type
with many-to-many relations, `save`, collection `create`, `update`,
`bulk_create`, `get_or_create` and `update_or_create` fail with a
configuration error and perform no persistence side effect; but entity
`delete`, collection `delete` and `bulk_update` perform no such check —
they treat the omitted kwarg exactly like an explicit `False` (`delete`
pops it with default `False`; `bulk_update` sends the signal for a falsy
value) and ignore `_meta.many_to_many` entirely. -/
theorem claim_C3_amended (k : BaseKwargs) (hk : k.skip_signal_send = none) :
    (∀ pk newPk cleanOk,
      (BaseModel_save true k pk newPk cleanOk).2 = Except.error () ∧
      (BaseModel_save true k pk newPk cleanOk).1.any isPersistEv = false) ∧
    (∀ newPk cleanOk,
      (BaseQuerySet_create true k newPk cleanOk).2 = Except.error () ∧
      (BaseQuerySet_create true k newPk cleanOk).1.any isPersistEv = false) ∧
    (∀ rows,
      (BaseQuerySet_update true k rows).2 = Except.error () ∧
      (BaseQuerySet_update true k rows).1.any isPersistEv = false) ∧
    (∀ managers objectsKwarg objs db,
      (BaseQuerySet_bulk_create true managers objectsKwarg k objs db).2
        = Except.error () ∧
      (BaseQuerySet_bulk_create true managers objectsKwarg k objs db).1.any isPersistEv
        = false) ∧
    (∀ found newPk cleanOk,
      (BaseQuerySet_get_or_create true k found newPk cleanOk).2 = Except.error () ∧
      (BaseQuerySet_get_or_create true k found newPk cleanOk).1.any isPersistEv
        = false) ∧
    (∀ found newPk cleanOk,
      (BaseQuerySet_update_or_create true k found newPk cleanOk).2 = Except.error () ∧
      (BaseQuerySet_update_or_create true k found newPk cleanOk).1.any isPersistEv
        = false) ∧
    (∀ pk act o2o m2o db,
      BaseModel_delete true (withSss k none) pk act o2o m2o db
        = BaseModel_delete false (withSss k (some false)) pk act o2o m2o db) ∧
    (∀ ms db,
      BaseQuerySet_delete true (withSss k none) ms db
        = BaseQuerySet_delete false (withSss k (some false)) ms db) ∧
    (∀ objs fields batch_size maxB,
      BaseQuerySet_bulk_update true (withSss k none) objs fields batch_size maxB
        = BaseQuerySet_bulk_update false (withSss k (some false)) objs fields
            batch_size maxB) := by
  have hsave : ∀ pk newPk cleanOk,
      (BaseModel_save true k pk newPk cleanOk).2 = Except.error () ∧
      (BaseModel_save true k pk newPk cleanOk).1.any isPersistEv = false := by
    intro pk newPk cleanOk
    unfold BaseModel_save
    cases hu : resolveUser k with
    | error e => simp [hu]
    | ok u => simp [hu, hk]
  refine ⟨hsave, ?_, ?_, ?_, ?_, ?_, ?_, ?_, ?_⟩
  · intro newPk cleanOk
    exact hsave none newPk cleanOk
  · intro rows
    unfold BaseQuerySet_update
    cases hu : resolveUser k with
    | error e => simp [hu]
    | ok u => simp [hu, hk]
  · intro managers objectsKwarg objs db
    unfold BaseQuerySet_bulk_create
    by_cases hmg : managers > 1 ∧ ¬objectsKwarg = true
    · rw [if_pos hmg]; simp
    · rw [if_neg hmg]
      cases hu : resolveUser k with
      | error e => simp [hu]
      | ok u =>
        simp only [hu, hk]
        cases k.skip_pre_save <;> simp [isPersistEv]
  · intro found newPk cleanOk
    unfold BaseQuerySet_get_or_create
    cases hu : resolveUser k with
    | error e => simp [hu]
    | ok u => simp [hu, hk]
  · intro found newPk cleanOk
    unfold BaseQuerySet_update_or_create
    cases hu : resolveUser k with
    | error e => simp [hu]
    | ok u => simp [hu, hk]
  · intro pk act o2o m2o db
    rfl
  · intro ms db
    rfl
  · intro objs fields batch_size maxB
    unfold BaseQuerySet_bulk_update
    cases hu : resolveUser (withSss k none) with
    | error e =>
      have hu2 : resolveUser (withSss k (some false)) = Except.error e := hu
      rw [hu2]
    | ok u =>
      have hu2 : resolveUser (withSss k (some false)) = Except.ok u := hu
      rw [hu2]
      dsimp only
      rw [underscore_bulk_update_m2m_irrelevant objs fields batch_size maxB u]
      rfl

/-- Witness for claim C3 (amended): a save with an actor, default options
and `skip_signal_send` omitted on an m2m model fails with no persistence
side effect. -/
theorem claim_C3_amended_witness :
    (BaseModel_save true (defaultKwargs 3) none 5 true).2 = Except.error () ∧
    (BaseModel_save true (defaultKwargs 3) none 5 true).1.any isPersistEv = false :=
  (claim_C3_amended (defaultKwargs 3) rfl).1 none 5 true

/-! ## Claim C6: bulk_create validation and atomicity -/

/-- Counterexample to claim C6: `bulk_create` of three new records with
`clean_mode=full`, the second failing validation, performs the batch insert
of all three rows *before* any validation step — no entity is validated
before insertion (the trace shows the insert first and no validation event
before the first persistence step), contradicting the claimed
validate-before-insert ordering.  The call does end in an error. -/
theorem claim_C6_counterexample :
    (BaseQuerySet_bulk_create false 1 true (defaultKwargs 3)
        [(11, true), (12, false), (13, true)] []).1
      = [Ev.bulkPreSaveHook, Ev.insertRows [11, 12, 13], Ev.cleanRow 11] ∧
    ((BaseQuerySet_bulk_create false 1 true (defaultKwargs 3)
        [(11, true), (12, false), (13, true)] []).1.takeWhile
          (fun e => !(isPersistEv e))).any isCleanEv = false ∧
    (BaseQuerySet_bulk_create false 1 true (defaultKwargs 3)
        [(11, true), (12, false), (13, true)] []).2 = Except.error () := by
  decide

theorem cleanRowsGo_fail (rows : List (Nat × Bool)) (h : ∃ o ∈ rows, o.2 = false) :
    (cleanRowsGo rows).2 = false := by
  induction rows with
  | nil => simp at h
  | cons r rs ih =>
    rcases r with ⟨pk, ok⟩
    cases ok with
    | false => simp [cleanRowsGo]
    | true =>
      rcases h with ⟨o, ho, hf⟩
      rcases List.mem_cons.mp ho with rfl | ho2
      · simp at hf
      · have hrec := ih ⟨o, ho2, hf⟩
        cases hcr : cleanRowsGo rs with
        | mk evs b =>
          rw [hcr] at hrec
          simp only at hrec
          simp [cleanRowsGo, hcr, hrec]

/-- Claim C6 as amended: in `bulk_create`, validation happens inside the
same transaction but only after the batch insert (no validation event ever
precedes the first persistence step of the trace); with `clean_mode=full`,
if any record fails validation the transaction rolls back and no records
are persisted by the call. -/
theorem claim_C6_amended (hasM2M : Bool) (managers : Nat) (objectsKwarg : Bool)
    (k : BaseKwargs) (objs : List (Nat × Bool)) (db : Db) :
    ((BaseQuerySet_bulk_create hasM2M managers objectsKwarg k objs db).1.takeWhile
        (fun e => !(isPersistEv e))).any isCleanEv = false ∧
    (k.clean_mode = CleanMode.full → (∃ o ∈ objs, o.2 = false) →
      BaseQuerySet_bulk_create_atomic hasM2M managers objectsKwarg k objs db = db) := by
  constructor
  · unfold BaseQuerySet_bulk_create
    split
    · simp
    · cases hu : resolveUser k with
      | error e => simp
      | ok u =>
        by_cases hm : hasM2M = true ∧ k.skip_signal_send = none
        · rw [if_pos hm]
          cases k.skip_pre_save <;> simp [isPersistEv, isCleanEv]
        · rw [if_neg hm]
          cases hcr : cleanRows k.clean_mode objs with
          | mk ev3 okc =>
            cases okc <;> cases k.skip_pre_save <;>
              simp [isPersistEv, isCleanEv, List.takeWhile_cons]
  · intro hmode hfail
    have herr : (BaseQuerySet_bulk_create hasM2M managers objectsKwarg k objs db).2
        = Except.error () := by
      unfold BaseQuerySet_bulk_create
      split
      · rfl
      · cases hu : resolveUser k with
        | error e => rfl
        | ok u =>
          by_cases hm : hasM2M = true ∧ k.skip_signal_send = none
          · rw [if_pos hm]
          · rw [if_neg hm, hmode]
            simp only [cleanRows]
            cases hcr : cleanRowsGo objs with
            | mk ev3 okc =>
              cases okc with
              | false => rfl
              | true =>
                have hfl := cleanRowsGo_fail objs hfail
                rw [hcr] at hfl
                simp at hfl
    unfold BaseQuerySet_bulk_create_atomic
    rw [herr]

/-- Witness for claim C6 (amended): the concrete three-record bulk_create
with a failing second record leaves the database unchanged, and no
validation event precedes the insert. -/
theorem claim_C6_amended_witness :
    ((BaseQuerySet_bulk_create false 1 true (defaultKwargs 3)
        [(11, true), (12, false), (13, true)] [7]).1.takeWhile
          (fun e => !(isPersistEv e))).any isCleanEv = false ∧
    BaseQuerySet_bulk_create_atomic false 1 true (defaultKwargs 3)
        [(11, true), (12, false), (13, true)] [7] = [7] := by
  have h := claim_C6_amended false 1 true (defaultKwargs 3)
      [(11, true), (12, false), (13, true)] [7]
  exact ⟨h.1, h.2 rfl ⟨(12, false), by decide, rfl⟩⟩

/-! ## Claim C1: ordering of the single-entity delete pipeline -/

theorem physRemoved_append (c : Nat) (a b : List Ev) :
    physRemoved c (a ++ b) = (physRemoved c a || physRemoved c b) := by
  simp [physRemoved, List.any_append]

theorem mem_allPks_split (c : Nat) (ms : ET) :
    c ∈ allPks ms → c ∈ pksF ms ∨ c ∈ kidsPks ms := by
  induction ms with
  | nil => intro h; simp [allPks] at h
  | node pk act o2o m2o sib iho ihm ihs =>
    intro h
    simp only [allPks, List.mem_cons, List.mem_append, or_assoc] at h
    simp only [pksF, kidsPks, List.mem_cons, List.mem_append, or_assoc]
    rcases h with rfl | h | h | h
    · tauto
    · tauto
    · tauto
    · rcases ihs h with h2 | h2 <;> tauto

theorem rbind_ok (r : DbR) (f : Db → DbR) (tr : List Ev) (d : Db)
    (h : rbind r f = (tr, Except.ok d)) :
    ∃ tr1 d1 tr2, r = (tr1, Except.ok d1) ∧ f d1 = (tr2, Except.ok d) ∧
      tr = tr1 ++ tr2 := by
  rcases r with ⟨tr1, x1⟩
  cases x1 with
  | error e => simp [rbind] at h
  | ok d1 =>
    rcases hf : f d1 with ⟨tr2, x2⟩
    simp only [rbind, hf] at h
    cases x2 with
    | error e => simp at h
    | ok d2 =>
      simp only [Prod.mk.injEq, Except.ok.injEq] at h
      exact ⟨tr1, d1, tr2, rfl, by rw [hf, h.2], h.1.symm⟩

theorem qsDelStep_ok (ms : ET) (kids : Db → DbR) (db : Db) (tr : List Ev) (d : Db)
    (h : qsDelStep ms kids db = (tr, Except.ok d)) :
    anyAct ms = false ∧ ∃ trk dk, kids db = (trk, Except.ok dk) ∧
      tr = Ev.bulkPreDeleteHook (pksF ms) :: trk
        ++ [Ev.bulkDeleteSignal (pksF ms), Ev.physicalDeleteMany (pksF ms)]
        ++ [Ev.bulkPostDeleteHook (pksF ms)] ∧
      d = dbRemoveMany (pksF ms) dk := by
  unfold qsDelStep at h
  cases ha : anyAct ms with
  | true => rw [ha] at h; simp at h
  | false =>
    rw [ha] at h
    simp only [Bool.false_eq_true, if_false] at h
    rcases hk : kids db with ⟨trk, x⟩
    rw [hk] at h
    cases x with
    | error e => simp at h
    | ok dk =>
      simp only [Prod.mk.injEq, Except.ok.injEq] at h
      exact ⟨rfl, trk, dk, rfl, h.1.symm, h.2.symm⟩

theorem entDelStep_ok (pk : Nat) (act : Bool) (o2oRun qsRun : Db → DbR) (db : Db)
    (tr : List Ev) (d : Db)
    (h : entDelStep pk act o2oRun qsRun db = (tr, Except.ok d)) :
    act = false ∧ ∃ t1 d1 t2 d2, o2oRun db = (t1, Except.ok d1) ∧
      qsRun d1 = (t2, Except.ok d2) ∧
      tr = [Ev.preDeleteHook pk, Ev.deleteSignal pk] ++ t1 ++ t2
        ++ [Ev.physicalDelete pk, Ev.postDeleteHook pk] ∧
      d = dbRemove pk d2 := by
  unfold entDelStep at h
  cases act with
  | true => simp at h
  | false =>
    simp only [Bool.false_eq_true, if_false] at h
    rcases h1 : o2oRun db with ⟨t1, x1⟩
    rw [h1] at h
    cases x1 with
    | error e => simp at h
    | ok d1 =>
      dsimp only at h
      rcases h2 : qsRun d1 with ⟨t2, x2⟩
      rw [h2] at h
      cases x2 with
      | error e => simp at h
      | ok d2 =>
        simp only [Prod.mk.injEq, Except.ok.injEq] at h
        exact ⟨rfl, t1, d1, t2, d2, rfl, h2, h.1.symm, h.2.symm⟩

theorem mem_contains_true {c : Nat} {l : List Nat} (h : c ∈ l) :
    l.contains c = true :=
  List.elem_eq_true_of_mem h

theorem qsDelIfAny_phys (ms : ET)
    (hk : ∀ db tr d, qsKidsRun ms db = (tr, Except.ok d) →
      ∀ c ∈ kidsPks ms, physRemoved c tr = true) :
    ∀ db tr d, qsDelIfAny ms (qsKidsRun ms) db = (tr, Except.ok d) →
      ∀ c ∈ allPks ms, physRemoved c tr = true := by
  intro db tr d h c hc
  cases ms with
  | nil => simp [allPks] at hc
  | node pk act o2o m2o sib =>
    simp only [qsDelIfAny] at h
    obtain ⟨-, trk, dk, hkids, rfl, -⟩ := qsDelStep_ok _ _ _ _ _ h
    rcases mem_allPks_split c _ hc with hm | hm
    · simp [physRemoved, evRemoves, List.any_append]
      exact Or.inr hm
    · have hphys := hk db trk dk hkids c hm
      simp only [physRemoved] at hphys
      simp [physRemoved, List.any_append, hphys]

theorem qsKidsRun_phys (ms : ET) :
    ∀ db tr d, qsKidsRun ms db = (tr, Except.ok d) →
      ∀ c ∈ kidsPks ms, physRemoved c tr = true := by
  induction ms with
  | nil => intro db tr d h c hc; simp [kidsPks] at hc
  | node pk act o2o m2o sib iho ihm ihs =>
    intro db tr d h c hc
    unfold qsKidsRun at h
    obtain ⟨t1, d1, t23, h1, h23, rfl⟩ := rbind_ok _ _ _ _ h
    obtain ⟨t2, d2, t3, h2, h3, rfl⟩ := rbind_ok _ _ _ _ h23
    simp only [kidsPks, List.mem_append, or_assoc] at hc
    rcases hc with hc | hc | hc
    · have := qsDelIfAny_phys o2o iho db t1 d1 h1 c hc
      simp [physRemoved_append, this]
    · have := qsDelIfAny_phys m2o ihm d1 t2 d2 h2 c hc
      simp [physRemoved_append, this]
    · have := ihs d2 t3 d h3 c hc
      simp [physRemoved_append, this]

theorem entDelForestRun_phys (f : ET) :
    ∀ db tr d, entDelForestRun f db = (tr, Except.ok d) →
      ∀ c ∈ allPks f, physRemoved c tr = true := by
  induction f with
  | nil => intro db tr d h c hc; simp [allPks] at hc
  | node pk act o2o m2o sib iho ihm ihs =>
    intro db tr d h c hc
    unfold entDelForestRun at h
    obtain ⟨t1, d1, t2, h1, h2, rfl⟩ := rbind_ok _ _ _ _ h
    obtain ⟨-, ta, da, tb, db2, ha, hb, rfl, -⟩ := entDelStep_ok _ _ _ _ _ _ _ h1
    simp only [allPks, List.mem_cons, List.mem_append, or_assoc] at hc
    rcases hc with rfl | hc | hc | hc
    · simp [physRemoved, evRemoves, List.any_cons, List.any_append]
    · have hph := iho db ta da ha c hc
      simp only [physRemoved] at hph
      simp [physRemoved, List.any_cons, List.any_append, hph]
    · have hph := qsDelIfAny_phys m2o (qsKidsRun_phys m2o) da tb db2 hb c hc
      simp only [physRemoved] at hph
      simp [physRemoved, List.any_cons, List.any_append, hph]
    · have hph := ihs d1 t2 d h2 c hc
      simp only [physRemoved] at hph
      simp [physRemoved, List.any_cons, List.any_append, hph]

theorem shape_take_drop (x y z w : Ev) (mid : List Ev) :
    (x :: y :: (mid ++ [z, w])).take 2 = [x, y] ∧
    (x :: y :: (mid ++ [z, w])).drop ((x :: y :: (mid ++ [z, w])).length - 2)
      = [z, w] ∧
    ((x :: y :: (mid ++ [z, w])).drop 2).dropLast.dropLast = mid := by
  refine ⟨rfl, ?_, ?_⟩
  · have hl : (x :: y :: (mid ++ [z, w])).length - 2 = mid.length + 2 := by
      simp only [List.length_cons, List.length_append, List.length_nil]
      omega
    rw [hl, Nat.add_comm mid.length 2, ← List.drop_drop]
    show (mid ++ [z, w]).drop mid.length = [z, w]
    exact List.drop_left mid [z, w]
  · show (mid ++ [z, w]).dropLast.dropLast = mid
    have hzw : mid ++ [z, w] = (mid ++ [z]) ++ [w] := by simp
    rw [hzw, List.dropLast_concat, List.dropLast_concat]

/-- Claim C1: a completing `BaseModel.delete` with hooks and notifications
not suppressed runs the `pre_delete` hook first, then publishes the
`delete` notification (so it precedes any physical removal, which all
happen later in the trace), then deletes every cascade target transitively
reachable through one-to-one and reverse-foreign-key cascade relations
(each one's physical removal appears in the middle segment of the trace),
and removes the entity itself only after all of them, followed only by the
`post_delete` hook. -/
theorem claim_C1_delete_ordering (hasM2M : Bool) (k : BaseKwargs) (pk : Nat)
    (act : Bool) (o2o m2o : ET) (db : Db) (tr : List Ev) (db' : Db)
    (hpre : k.skip_pre_delete = false) (hpost : k.skip_post_delete = false)
    (hsig : k.skip_signal_send.getD false = false)
    (hrun : BaseModel_delete hasM2M k pk act o2o m2o db = (tr, Except.ok db')) :
    tr.take 2 = [Ev.preDeleteHook pk, Ev.deleteSignal pk] ∧
    tr.drop (tr.length - 2) = [Ev.physicalDelete pk, Ev.postDeleteHook pk] ∧
    (allPks o2o ++ allPks m2o).all
      (fun c => physRemoved c ((tr.drop 2).dropLast.dropLast)) = true := by
  unfold BaseModel_delete at hrun
  rw [hsig, hpre, hpost] at hrun
  cases hu : resolveUser k with
  | error e => rw [hu] at hrun; simp at hrun
  | ok u =>
    rw [hu] at hrun
    cases act with
    | true => simp at hrun
    | false =>
      simp only [Bool.false_eq_true, and_false, not_false_eq_true, if_false,
        Bool.not_false, and_true, if_true, if_neg] at hrun
      rcases h1 : entDelForestRun o2o db with ⟨t1, x1⟩
      rw [h1] at hrun
      cases x1 with
      | error e => simp at hrun
      | ok d1 =>
        dsimp only at hrun
        rcases h2 : qsDelRun m2o d1 with ⟨t2, x2⟩
        rw [h2] at hrun
        cases x2 with
        | error e => simp at hrun
        | ok d2 =>
          simp only [Prod.mk.injEq] at hrun
          have htr : tr = Ev.preDeleteHook pk :: Ev.deleteSignal pk ::
              ((t1 ++ t2) ++ [Ev.physicalDelete pk, Ev.postDeleteHook pk]) := by
            rw [← hrun.1]
            simp
          obtain ⟨hs1, hs2, hs3⟩ := shape_take_drop (Ev.preDeleteHook pk)
            (Ev.deleteSignal pk) (Ev.physicalDelete pk) (Ev.postDeleteHook pk)
            (t1 ++ t2)
          rw [htr]
          refine ⟨hs1, hs2, ?_⟩
          rw [hs3]
          rw [List.all_eq_true]
          intro c hc
          rcases List.mem_append.mp hc with hm | hm
          · have := entDelForestRun_phys o2o db t1 d1 h1 c hm
            simp [physRemoved_append, this]
          · have := qsDelIfAny_phys m2o (qsKidsRun_phys m2o) d1 t2 d2 h2 c hm
            simp [physRemoved_append, this]

/-- Witness for claim C1 at the concrete Team → Player → PlayerTraining
shape with no active rows: Team 1 with reverse-FK cascade target Player 2,
which has one-to-one cascade target PlayerTraining 3. -/
theorem claim_C1_witness :
    ((BaseModel_delete false (defaultKwargs 9) 1 false ET.nil
        (ET.node 2 false (ET.node 3 false ET.nil ET.nil ET.nil) ET.nil ET.nil)
        [1, 2, 3]).1).take 2 = [Ev.preDeleteHook 1, Ev.deleteSignal 1] ∧
    ((BaseModel_delete false (defaultKwargs 9) 1 false ET.nil
        (ET.node 2 false (ET.node 3 false ET.nil ET.nil ET.nil) ET.nil ET.nil)
        [1, 2, 3]).1).drop
      (((BaseModel_delete false (defaultKwargs 9) 1 false ET.nil
        (ET.node 2 false (ET.node 3 false ET.nil ET.nil ET.nil) ET.nil ET.nil)
        [1, 2, 3]).1).length - 2)
      = [Ev.physicalDelete 1, Ev.postDeleteHook 1] ∧
    (allPks ET.nil ++ allPks
        (ET.node 2 false (ET.node 3 false ET.nil ET.nil ET.nil) ET.nil ET.nil)).all
      (fun c => physRemoved c
        ((((BaseModel_delete false (defaultKwargs 9) 1 false ET.nil
          (ET.node 2 false (ET.node 3 false ET.nil ET.nil ET.nil) ET.nil ET.nil)
          [1, 2, 3]).1).drop 2).dropLast.dropLast)) = true :=
  claim_C1_delete_ordering false (defaultKwargs 9) 1 false ET.nil
    (ET.node 2 false (ET.node 3 false ET.nil ET.nil ET.nil) ET.nil ET.nil)
    [1, 2, 3]
    (BaseModel_delete false (defaultKwargs 9) 1 false ET.nil
      (ET.node 2 false (ET.node 3 false ET.nil ET.nil ET.nil) ET.nil ET.nil)
      [1, 2, 3]).1
    [] rfl rfl rfl rfl

/-! ## Claim C2: a raising cascade hook rolls the whole delete back -/

/-- Whether some strict cascade descendant of a forest member is active. -/
def kidsAct : ET → Bool
  | ET.nil => false
  | ET.node _ _ o2o m2o sib => anyActAll o2o || anyActAll m2o || kidsAct sib

theorem anyAct_false_of_anyActAll (ms : ET) (h : anyActAll ms = false) :
    anyAct ms = false := by
  induction ms with
  | nil => rfl
  | node pk act o2o m2o sib iho ihm ihs =>
    simp only [anyActAll, Bool.or_eq_false_iff] at h
    obtain ⟨⟨⟨ha, ho⟩, hm⟩, hs⟩ := h
    simp [anyAct, ha, ihs hs]

theorem kidsAct_of (ms : ET) (h1 : anyActAll ms = true) (h2 : anyAct ms = false) :
    kidsAct ms = true := by
  induction ms with
  | nil => simp [anyActAll] at h1
  | node pk act o2o m2o sib iho ihm ihs =>
    simp only [anyAct, Bool.or_eq_false_iff] at h2
    obtain ⟨ha, hs2⟩ := h2
    simp only [anyActAll, ha, Bool.false_or, Bool.or_eq_true] at h1
    simp only [kidsAct, Bool.or_eq_true]
    rcases h1 with (h | h) | h
    · exact Or.inl (Or.inl h)
    · exact Or.inl (Or.inr h)
    · exact Or.inr (ihs h hs2)

theorem rbind_err1 (r : DbR) (f : Db → DbR) (e : Unit) (h : r.2 = Except.error e) :
    (rbind r f).2 = Except.error e := by
  rcases r with ⟨tr, x⟩
  cases x with
  | error e2 => simp only [rbind]
  | ok d => simp at h

theorem rbind_err2 (r : DbR) (f : Db → DbR) (tr : List Ev) (d : Db)
    (hr : r = (tr, Except.ok d)) (hf : (f d).2 = Except.error ()) :
    (rbind r f).2 = Except.error () := by
  subst hr
  rcases hfd : f d with ⟨tr2, x⟩
  rw [hfd] at hf
  cases x with
  | error e => simp [rbind, hfd]
  | ok d2 => simp at hf

theorem qsDelIfAny_ok_of (ms : ET) (db : Db) (hact : anyAct ms = false)
    (hk : ∃ tr d, qsKidsRun ms db = (tr, Except.ok d)) :
    ∃ tr d, qsDelIfAny ms (qsKidsRun ms) db = (tr, Except.ok d) := by
  cases ms with
  | nil => exact ⟨[], db, rfl⟩
  | node pk act o2o m2o sib =>
    obtain ⟨tr, d, h⟩ := hk
    have hstep : qsDelStep (ET.node pk act o2o m2o sib)
        (qsKidsRun (ET.node pk act o2o m2o sib)) db
        = (Ev.bulkPreDeleteHook (pksF (ET.node pk act o2o m2o sib)) :: tr
            ++ [Ev.bulkDeleteSignal (pksF (ET.node pk act o2o m2o sib)),
                Ev.physicalDeleteMany (pksF (ET.node pk act o2o m2o sib))]
            ++ [Ev.bulkPostDeleteHook (pksF (ET.node pk act o2o m2o sib))],
           Except.ok (dbRemoveMany (pksF (ET.node pk act o2o m2o sib)) d)) := by
      unfold qsDelStep
      rw [hact, h]
      rfl
    exact ⟨_, _, hstep⟩

theorem qsKidsRun_ok (ms : ET) (h : anyActAll ms = false) :
    ∀ db, ∃ tr d, qsKidsRun ms db = (tr, Except.ok d) := by
  induction ms with
  | nil => intro db; exact ⟨[], db, rfl⟩
  | node pk act o2o m2o sib iho ihm ihs =>
    intro db
    simp only [anyActAll, Bool.or_eq_false_iff] at h
    obtain ⟨⟨⟨ha, ho⟩, hm⟩, hs⟩ := h
    obtain ⟨t1, d1, h1⟩ :=
      qsDelIfAny_ok_of o2o db (anyAct_false_of_anyActAll o2o ho) (iho ho db)
    obtain ⟨t2, d2, h2⟩ :=
      qsDelIfAny_ok_of m2o d1 (anyAct_false_of_anyActAll m2o hm) (ihm hm d1)
    obtain ⟨t3, d3, h3⟩ := ihs hs d2
    exact ⟨t1 ++ (t2 ++ t3), d3, by simp [qsKidsRun, rbind, h1, h2, h3]⟩

theorem qs_err (ms : ET) :
    ∀ db, kidsAct ms = true → (qsKidsRun ms db).2 = Except.error () := by
  induction ms with
  | nil => intro db h; simp [kidsAct] at h
  | node pk act o2o m2o sib iho ihm ihs =>
    intro db h
    have hstep : ∀ (t : ET),
        (∀ db2, kidsAct t = true → (qsKidsRun t db2).2 = Except.error ()) →
        anyActAll t = true → ∀ db2,
        (qsDelIfAny t (qsKidsRun t) db2).2 = Except.error () := by
      intro t hkerr hall db2
      cases t with
      | nil => simp [anyActAll] at hall
      | node pk2 act2 o2o2 m2o2 sib2 =>
        cases hA : anyAct (ET.node pk2 act2 o2o2 m2o2 sib2) with
        | true => simp [qsDelIfAny, qsDelStep, hA]
        | false =>
          have hkids := kidsAct_of _ hall hA
          have herr := hkerr db2 hkids
          rcases hq : qsKidsRun (ET.node pk2 act2 o2o2 m2o2 sib2) db2 with ⟨trk, x⟩
          rw [hq] at herr
          cases x with
          | error e => simp [qsDelIfAny, qsDelStep, hA, hq]
          | ok dk => simp at herr
    simp only [kidsAct, Bool.or_eq_true] at h
    unfold qsKidsRun
    rcases h with (h | h) | h
    · exact rbind_err1 _ _ () (hstep o2o iho h db)
    · rcases hq1 : qsDelIfAny o2o (qsKidsRun o2o) db with ⟨t1, x1⟩
      cases x1 with
      | error e =>
        apply rbind_err1
        rfl
      | ok d1 =>
        apply rbind_err2 _ _ t1 d1 rfl
        exact rbind_err1 _ _ () (hstep m2o ihm h d1)
    · rcases hq1 : qsDelIfAny o2o (qsKidsRun o2o) db with ⟨t1, x1⟩
      cases x1 with
      | error e =>
        apply rbind_err1
        rfl
      | ok d1 =>
        apply rbind_err2 _ _ t1 d1 rfl
        rcases hq2 : qsDelIfAny m2o (qsKidsRun m2o) d1 with ⟨t2, x2⟩
        cases x2 with
        | error e =>
          apply rbind_err1
          rfl
        | ok d2 =>
          apply rbind_err2 _ _ t2 d2 rfl
          exact ihs d2 h

theorem qsStep_err (ms : ET) (hall : anyActAll ms = true) (db : Db) :
    (qsDelIfAny ms (qsKidsRun ms) db).2 = Except.error () := by
  cases ms with
  | nil => simp [anyActAll] at hall
  | node pk act o2o m2o sib =>
    cases hA : anyAct (ET.node pk act o2o m2o sib) with
    | true => simp [qsDelIfAny, qsDelStep, hA]
    | false =>
      have hkids := kidsAct_of _ hall hA
      have herr := qs_err _ db hkids
      rcases hq : qsKidsRun (ET.node pk act o2o m2o sib) db with ⟨trk, x⟩
      rw [hq] at herr
      cases x with
      | error e => simp [qsDelIfAny, qsDelStep, hA, hq]
      | ok dk => simp at herr

theorem ent_err (f : ET) (hall : anyActAll f = true) :
    ∀ db, (entDelForestRun f db).2 = Except.error () := by
  induction f with
  | nil => simp [anyActAll] at hall
  | node pk act o2o m2o sib iho ihm ihs =>
    intro db
    unfold entDelForestRun
    cases hact : act with
    | true =>
      apply rbind_err1
      simp [entDelStep]
    | false =>
      simp only [anyActAll, hact, Bool.false_or, Bool.or_eq_true] at hall
      rcases hall with (h | h) | h
      · apply rbind_err1
        have herr := iho h db
        rcases hq : entDelForestRun o2o db with ⟨t1, x1⟩
        rw [hq] at herr
        cases x1 with
        | error e => simp [entDelStep, hq]
        | ok d1 => simp at herr
      · apply rbind_err1
        rcases hq : entDelForestRun o2o db with ⟨t1, x1⟩
        cases x1 with
        | error e => simp [entDelStep, hq]
        | ok d1 =>
          have herr := qsStep_err m2o h d1
          rcases hq2 : qsDelIfAny m2o (qsKidsRun m2o) d1 with ⟨t2, x2⟩
          rw [hq2] at herr
          cases x2 with
          | error e => simp [entDelStep, hq, hq2]
          | ok d2 => simp at herr
      · rcases hq : entDelStep pk false (entDelForestRun o2o)
            (qsDelIfAny m2o (qsKidsRun m2o)) db with ⟨t1, x1⟩
        cases x1 with
        | error e =>
          apply rbind_err1
          rfl
        | ok d1 =>
          apply rbind_err2 _ _ t1 d1 rfl
          exact ihs h d1

/-- Claim C2: if any cascade target of the entity (reached through either
the one-to-one path or the reverse-foreign-key path, at any depth) has its
`pre_delete` / `bulk_pre_delete` hook raise (`is_active` in the test
models), the whole delete errors and the surrounding transaction leaves the
database exactly as it was: the root entity, the failing target and every
already-deleted sibling cascade target all remain present. -/
theorem claim_C2_cascade_atomicity (hasM2M : Bool) (k : BaseKwargs) (pk : Nat)
    (act : Bool) (o2o m2o : ET) (db : Db)
    (h : (anyActAll o2o || anyActAll m2o) = true) :
    BaseModel_delete_atomic hasM2M k pk act o2o m2o db = db := by
  unfold BaseModel_delete_atomic
  suffices hh : (BaseModel_delete hasM2M k pk act o2o m2o db).2 = Except.error () by
    rw [hh]
  unfold BaseModel_delete
  cases hu : resolveUser k with
  | error e => rfl
  | ok u =>
    dsimp only
    by_cases hb : ¬k.skip_pre_delete = true ∧ act = true
    · rw [if_pos hb]
    · rw [if_neg hb]
      have h2 := h
      simp only [Bool.or_eq_true] at h2
      rcases h2 with ho | hm
      · have herr := ent_err o2o ho db
        rcases he : entDelForestRun o2o db with ⟨t1, x1⟩
        rw [he] at herr
        cases x1 with
        | error e => rfl
        | ok d1 => simp at herr
      · rcases he : entDelForestRun o2o db with ⟨t1, x1⟩
        cases x1 with
        | error e => rfl
        | ok d1 =>
          dsimp only
          have herr := qsStep_err m2o hm d1
          rcases hq : qsDelRun m2o d1 with ⟨t2, x2⟩
          have hq2 : qsDelIfAny m2o (qsKidsRun m2o) d1 = (t2, x2) := hq
          rw [hq2] at herr
          cases x2 with
          | error e => rfl
          | ok d2 => simp at herr

/-- Witness for claim C2 at the spec's scenario: Team 1 with active
Player 2 (reverse-FK cascade target) owning PlayerTraining 3; the delete
rolls back and all three rows remain. -/
theorem claim_C2_witness :
    BaseModel_delete_atomic false (defaultKwargs 7) 1 false ET.nil
      (ET.node 2 true (ET.node 3 false ET.nil ET.nil ET.nil) ET.nil ET.nil)
      [1, 2, 3] = [1, 2, 3] :=
  claim_C2_cascade_atomicity false (defaultKwargs 7) 1 false ET.nil
    (ET.node 2 true (ET.node 3 false ET.nil ET.nil ET.nil) ET.nil ET.nil)
    [1, 2, 3] (by decide)

/-! ## Claim C10: hook and validation multiplicity of bulk_update -/

theorem cleanRowsGo_ok (rows : List (Nat × Bool)) (h : (cleanRowsGo rows).2 = true) :
    (cleanRowsGo rows).1 = rows.map (fun r => Ev.cleanRow r.1) := by
  induction rows with
  | nil => rfl
  | cons r rs ih =>
    rcases r with ⟨pk, ok⟩
    cases ok with
    | false => simp [cleanRowsGo] at h
    | true =>
      rcases hr : cleanRowsGo rs with ⟨evs2, b⟩
      rw [show cleanRowsGo ((pk, true) :: rs)
          = (Ev.cleanRow pk :: evs2, b) from by simp [cleanRowsGo, hr]] at h ⊢
      simp only at h
      have hmap := ih (by rw [hr]; exact h)
      rw [hr] at hmap
      simp only at hmap
      simp [hmap]

theorem countP_map_cleanRow (b : List (Nat × Bool)) :
    (b.map (fun r => Ev.cleanRow r.1)).countP isCleanEv = b.length := by
  induction b with
  | nil => rfl
  | cons r rs ih => simp [List.countP_cons, isCleanEv, ih]

theorem countP_map_cleanRow_zero (p : Ev → Bool) (hp : ∀ pk, p (Ev.cleanRow pk) = false)
    (b : List (Nat × Bool)) : (b.map (fun r => Ev.cleanRow r.1)).countP p = 0 := by
  induction b with
  | nil => rfl
  | cons r rs ih => simp [List.countP_cons, hp, ih]

theorem update_internal_counts (hasM2M : Bool) (u : Option Nat) (b : List (Nat × Bool))
    (tr : List Ev)
    (h : BaseQuerySet_update hasM2M (internalKwargs u) b = (tr, Except.ok ())) :
    tr.countP isBulkPreSave = 1 ∧ tr.countP isBulkPostSave = 1 ∧
    tr.countP isCleanEv = b.length := by
  unfold BaseQuerySet_update at h
  rw [show resolveUser (internalKwargs u) = Except.ok u from rfl] at h
  dsimp only at h
  rw [if_neg (by simp [internalKwargs])] at h
  simp only [internalKwargs] at h
  simp only [cleanRows] at h
  rcases hcr : cleanRowsGo b with ⟨ev3, okc⟩
  rw [hcr] at h
  cases okc with
  | false => simp at h
  | true =>
    have hev3 : ev3 = b.map (fun r => Ev.cleanRow r.1) := by
      have := cleanRowsGo_ok b (by rw [hcr])
      rw [hcr] at this
      exact this
    simp only [Prod.mk.injEq] at h
    subst hev3
    rw [← h.1]
    refine ⟨?_, ?_, ?_⟩ <;>
      simp [List.countP_append, List.countP_cons, isBulkPreSave, isBulkPostSave,
        isCleanEv, isTruthy, countP_map_cleanRow,
        countP_map_cleanRow_zero isBulkPreSave (fun pk => rfl),
        countP_map_cleanRow_zero isBulkPostSave (fun pk => rfl)]

theorem runBatches_counts (hasM2M : Bool) (u : Option Nat)
    (bs : List (List (Nat × Bool))) :
    ∀ tr, runBatches hasM2M u bs = (tr, Except.ok ()) →
      tr.countP isBulkPreSave = bs.length ∧ tr.countP isBulkPostSave = bs.length ∧
      tr.countP isCleanEv = (bs.map List.length).sum := by
  induction bs with
  | nil =>
    intro tr h
    simp only [runBatches, Prod.mk.injEq] at h
    rw [← h.1]
    exact ⟨rfl, rfl, rfl⟩
  | cons b bs ih =>
    intro tr h
    unfold runBatches at h
    rcases hu : BaseQuerySet_update hasM2M (internalKwargs u) b with ⟨trb, x⟩
    rw [hu] at h
    cases x with
    | error e => simp at h
    | ok a =>
      cases a
      dsimp only at h
      rcases hr : runBatches hasM2M u bs with ⟨tr2, r⟩
      rw [hr] at h
      cases r with
      | error e => simp at h
      | ok a2 =>
        cases a2
        simp only [Prod.mk.injEq] at h
        obtain ⟨c1, c2, c3⟩ := update_internal_counts hasM2M u b trb hu
        obtain ⟨d1, d2, d3⟩ := ih tr2 hr
        rw [← h.1]
        simp [List.countP_append, c1, c2, c3, d1, d2, d3, Nat.add_comm]

theorem chunksAux_flatten {α : Type} (k : Nat) :
    ∀ (l acc : List α) (c : Nat), (chunksAux k l acc c).flatten = acc.reverse ++ l := by
  intro l
  induction l with
  | nil =>
    intro acc c
    by_cases ha : acc.isEmpty
    · have hacc : acc = [] := List.isEmpty_iff.mp ha
      simp [chunksAux, ha, hacc]
    · simp [chunksAux, ha]
  | cons x xs ih =>
    intro acc c
    cases c with
    | zero => simp [chunksAux, ih]
    | succ c2 => simp [chunksAux, ih]

theorem sliceChunks_flatten {α : Type} (k : Nat) (hk : 0 < k) (l : List α) :
    (sliceChunks k l).flatten = l := by
  cases k with
  | zero => exact absurd hk (by simp)
  | succ kk => simp [sliceChunks, chunksAux_flatten]

theorem sliceChunks_nil {α : Type} (k : Nat) : sliceChunks k ([] : List α) = [] := by
  cases k <;> rfl

theorem resolvedBatchSize_pos (batch_size : Option Int) (maxB : Nat) (h : 0 < maxB) :
    0 < resolvedBatchSize batch_size maxB := by
  unfold resolvedBatchSize
  cases batch_size with
  | none => exact h
  | some b =>
    by_cases hb : b ≤ 0
    · simp [hb, h]
    · simp only [hb, if_false]
      omega

theorem underscore_ok_counts (hasM2M : Bool) (objs : List (Option Nat × Bool))
    (fields : List UField) (batch_size : Option Int) (maxB : Nat) (u : Option Nat)
    (trU : List Ev) (hmax : 0 < maxB)
    (h : BaseQuerySet_underscore_bulk_update hasM2M objs fields batch_size maxB u
      = (trU, Except.ok ())) :
    trU.countP isBulkPreSave
      = (sliceChunks (resolvedBatchSize batch_size maxB)
          (objs.map (fun o => (o.1.getD 0, o.2)))).length ∧
    trU.countP isBulkPostSave
      = (sliceChunks (resolvedBatchSize batch_size maxB)
          (objs.map (fun o => (o.1.getD 0, o.2)))).length ∧
    trU.countP isCleanEv = objs.length := by
  unfold BaseQuerySet_underscore_bulk_update at h
  split at h
  · simp at h
  · split at h
    · simp at h
    · split at h
      · simp at h
      · split at h
        · simp at h
        · split at h
          · simp at h
          · split at h
            · rename_i hempty
              have hobjs : objs = [] := List.isEmpty_iff.mp hempty
              simp only [Prod.mk.injEq] at h
              rw [← h.1]
              subst hobjs
              simp [sliceChunks_nil]
            · obtain ⟨c1, c2, c3⟩ := runBatches_counts hasM2M u _ trU h
              refine ⟨c1, c2, ?_⟩
              rw [c3]
              have hflat := sliceChunks_flatten (resolvedBatchSize batch_size maxB)
                (resolvedBatchSize_pos batch_size maxB hmax)
                (objs.map (fun o => (o.1.getD 0, o.2)))
              have hlen := congrArg List.length hflat
              rw [List.length_flatten] at hlen
              simpa using hlen

theorem countP_comp_cleanRow {α : Type} (g : α → Nat × Bool) (l : List α) :
    l.countP (isCleanEv ∘ (fun r => Ev.cleanRow r.1) ∘ g) = l.length := by
  induction l with
  | nil => rfl
  | cons x xs ih => simp [List.countP_cons, isCleanEv, Function.comp, ih]

/-- Claim C10: a completing `bulk_update` whose input is partitioned into n
batches, with hooks not suppressed and default (full) validation, runs the
type-level `bulk_pre_save` and `bulk_post_save` hooks n+1 times each (once
at the top level, once per internal per-batch queryset update, since the
internal updates suppress only the signal), and the total number of
validation events is twice the number of input objects (each batch member
is re-validated once inside its batch's internal update, and every object
once more at the top level). -/
theorem claim_C10_bulk_update_hook_counts (hasM2M : Bool) (k : BaseKwargs)
    (objs : List (Option Nat × Bool)) (fields : List UField)
    (batch_size : Option Int) (maxB : Nat) (tr : List Ev)
    (hpre : k.skip_pre_save = false) (hpost : k.skip_post_save = false)
    (hmode : k.clean_mode = CleanMode.full) (hmax : 0 < maxB)
    (hrun : BaseQuerySet_bulk_update hasM2M k objs fields batch_size maxB
      = (tr, Except.ok ())) :
    tr.countP isBulkPreSave
      = (sliceChunks (resolvedBatchSize batch_size maxB)
          (objs.map (fun o => (o.1.getD 0, o.2)))).length + 1 ∧
    tr.countP isBulkPostSave
      = (sliceChunks (resolvedBatchSize batch_size maxB)
          (objs.map (fun o => (o.1.getD 0, o.2)))).length + 1 ∧
    tr.countP isCleanEv = 2 * objs.length := by
  unfold BaseQuerySet_bulk_update at hrun
  cases hu : resolveUser k with
  | error e => rw [hu] at hrun; simp at hrun
  | ok u =>
    rw [hu] at hrun
    dsimp only at hrun
    rw [hpre] at hrun
    rcases hund : BaseQuerySet_underscore_bulk_update hasM2M objs fields
        batch_size maxB u with ⟨trU, x⟩
    rw [hund] at hrun
    cases x with
    | error e => simp at hrun
    | ok a =>
      cases a
      dsimp only at hrun
      rw [hmode] at hrun
      simp only [cleanRows] at hrun
      rcases hcr : cleanRowsGo (objs.map (fun o => (o.1.getD 0, o.2))) with ⟨ev3, okc⟩
      rw [hcr] at hrun
      cases okc with
      | false => simp at hrun
      | true =>
        have hev3 : ev3 = (objs.map (fun o => (o.1.getD 0, o.2))).map
            (fun r => Ev.cleanRow r.1) := by
          have := cleanRowsGo_ok (objs.map (fun o => (o.1.getD 0, o.2))) (by rw [hcr])
          rw [hcr] at this
          exact this
        rw [hpost] at hrun
        simp only [Prod.mk.injEq] at hrun
        obtain ⟨u1, u2, u3⟩ := underscore_ok_counts hasM2M objs fields batch_size
          maxB u trU hmax hund
        subst hev3
        rw [← hrun.1]
        cases hsig : isTruthy k.skip_signal_send <;>
          refine ⟨?_, ?_, ?_⟩ <;>
            simp [List.countP_append, List.countP_cons, isBulkPreSave,
              isBulkPostSave, isCleanEv, u1, u2, u3, countP_map_cleanRow,
              countP_comp_cleanRow,
              countP_map_cleanRow_zero isBulkPreSave (fun pk => rfl),
              countP_map_cleanRow_zero isBulkPostSave (fun pk => rfl)] <;>
            omega

/-- Witness for claim C10: three objects, batch size 2 (two batches): the
bulk hooks run 3 times each and six validation events occur. -/
theorem claim_C10_witness :
    (BaseQuerySet_bulk_update false (defaultKwargs 4)
        [(some 1, true), (some 2, true), (some 3, true)]
        [⟨true, false, false⟩] (some 2) 10).1.countP isBulkPreSave = 3 ∧
    (BaseQuerySet_bulk_update false (defaultKwargs 4)
        [(some 1, true), (some 2, true), (some 3, true)]
        [⟨true, false, false⟩] (some 2) 10).1.countP isBulkPostSave = 3 ∧
    (BaseQuerySet_bulk_update false (defaultKwargs 4)
        [(some 1, true), (some 2, true), (some 3, true)]
        [⟨true, false, false⟩] (some 2) 10).1.countP isCleanEv = 6 := by
  have h := claim_C10_bulk_update_hook_counts false (defaultKwargs 4)
      [(some 1, true), (some 2, true), (some 3, true)]
      [⟨true, false, false⟩] (some 2) 10
      (BaseQuerySet_bulk_update false (defaultKwargs 4)
        [(some 1, true), (some 2, true), (some 3, true)]
        [⟨true, false, false⟩] (some 2) 10).1
      rfl rfl rfl (by decide) (by decide)
  simpa using h

end DjangoBase
